import Mathlib

/-!
Shallow embedding of `src/white_box/scripts/eval_loop.py` (the function
`eval_loop`) together with models of the external collaborators it calls,
and proofs about the behaviour of the embedded program.

The file has two layers:

* a control/IO-flow model of `eval_loop`: output-directory resolution and
  creation, the `args.limit` truthiness test and `islice` truncation, the
  per-batch loop with its per-batch metric dictionary, the four running
  accumulators, the per-batch file written under the name taken from the
  progress display's counter, and the four summary files written after the
  loop;
* a real-valued model of the per-position metric arithmetic: `log_softmax`,
  `cross_entropy` with `reduction="none"`, the entropy sums, and the
  forward-KL sum of line 79-81 of the source.
-/

namespace WeightLensing

/-! Paths and a small filesystem model, for `output_dir.mkdir(...)`. -/

abbrev Path := List String

inductive FsError where
  | fileExists
  | fileNotFound
deriving DecidableEq

structure FS where
  dirs : List Path
deriving DecidableEq, Inhabited

def FS.hasDir (fs : FS) (p : Path) : Bool :=
  decide (p ∈ fs.dirs)

/-- All nonempty ancestors of a path, the path itself included. -/
def pathAncestors (p : Path) : List Path :=
  (List.range p.length).map (fun k => p.take (k + 1))

def FS.mkdirAll (fs : FS) (p : Path) : FS :=
  ⟨fs.dirs ++ (pathAncestors p).filter (fun q => !(fs.hasDir q))⟩

/-- Model of `pathlib.Path.mkdir(parents=..., exist_ok=...)`: raises
`FileExistsError` when the directory exists and `exist_ok` is not set,
creates missing ancestors when `parents` is set, and raises
`FileNotFoundError` when the parent is missing and `parents` is not set. -/
def FS.mkdir (fs : FS) (p : Path) (parents exist_ok : Bool) : Except FsError FS :=
  if fs.hasDir p then
    if exist_ok then .ok fs else .error .fileExists
  else if parents then
    .ok (fs.mkdirAll p)
  else if p.dropLast.isEmpty || fs.hasDir p.dropLast then
    .ok ⟨fs.dirs ++ [p]⟩
  else
    .error .fileNotFound

/-! The run configuration consumed by `eval_loop` (the fields of `args`
that the function reads).  Python `args.limit` may be `None` or `0`, both
falsy at the `if args.limit:` test on line 37; both are modelled as `0`.
`args.output` may be `None` (falsy at the `or` on line 43), modelled as
`none`. -/

structure Args where
  seed : Nat
  per_gpu_batch_size : Nat
  limit : Nat
  output : Option Path
  lens : Path
deriving DecidableEq

/-- Line 43: `root_dir = args.output or args.lens / "eval"`. -/
def root_dir (args : Args) : Path :=
  match args.output with
  | some p => p
  | none => args.lens ++ ["eval"]

/-- Line 44: `output_dir = root_dir / f"rank_{local_rank}"`. -/
def output_dir (args : Args) (local_rank : Nat) : Path :=
  root_dir args ++ ["rank_" ++ toString local_rank]

/-- The output-directory formula as the specification words it:
`<output-or-lens-path>/eval/rank_<rank>`, i.e. the `eval` component is
appended whether or not `args.output` is set.  Stated from the spec's
words, to be compared with `output_dir`, which is translated from the
source. -/
def spec_output_dir (args : Args) (local_rank : Nat) : Path :=
  (match args.output with
   | some p => p
   | none => args.lens) ++ ["eval", "rank_" ++ toString local_rank]

/-! Residual-stream tensors.  A captured hidden-state tensor has shape
(batch, position, hidden); we model it loosely as a list of per-example
position lists over an abstract entry type `R` (an entry standing for one
position's hidden vector).  A captured stream is an ordered list of
(layer name, tensor) pairs, as produced by `record_residual_stream`. -/

abbrev Tensor (R : Type) := List (List R)

/-- Line 83/84: `stream.map(lambda x: ...)` — the stream accessor's
transform, applied tensor-wise, preserving layer names and order. -/
def streamMap {R α : Type} (f : Tensor R → α) (s : List (String × Tensor R)) :
    List (String × α) :=
  s.map (fun nh => (nh.1, f nh.2))

/-- Line 83: `x[:, 0]` — each example's position-0 entry. -/
def sliceFirstTok {R : Type} (t : Tensor R) : List (Option R) :=
  t.map List.head?

/-- Line 84: `x[:, 1:]` — positions 1..end of each example. -/
def sliceRest {R : Type} (t : Tensor R) : Tensor R :=
  t.map (List.drop 1)

/-- Modelled from the spec: `ResidualStream.residuals` (white_box, not under
`src/`) — "the residuals of `rest` (successive-position differences,
computed by the accumulated-stats component)", §4.1 step f: within each
layer's tensor, the difference of each position's entry from the next
position's entry. -/
def residualsT {R : Type} [Sub R] (t : Tensor R) : Tensor R :=
  t.map (fun row => List.zipWith (fun a b => b - a) row (row.drop 1))

/-- Modelled from the spec: `white_box.ResidualStats` (not under `src/`) is a
running mean/covariance accumulator over residual-stream structures, mutated
once per batch through `update`; we model it by the sequence of update
payloads it has received, the initial state being the empty sequence. -/
structure ResidualStats (P : Type) where
  updates : List P
deriving DecidableEq, Inhabited

def ResidualStats.update {P : Type} (s : ResidualStats P) (x : P) : ResidualStats P :=
  ⟨s.updates ++ [x]⟩

/-- Modelled from the spec: `white_box.LogitStats` (not under `src/`), a
statistics accumulator over log-probability tensors whose `update` takes an
`assume_normalized` flag; modelled by its sequence of update payloads. -/
structure LogitStats (M : Type) where
  updates : List (M × Bool)
deriving DecidableEq, Inhabited

def LogitStats.update {M : Type} (s : LogitStats M) (x : M) (assume_normalized : Bool) :
    LogitStats M :=
  ⟨s.updates ++ [(x, assume_normalized)]⟩

/-- The per-batch metric dictionary `batch_output` of lines 58-98: five
metric names, each mapping layer names to tensors, in insertion order; the
`"final"` entries of the two baseline metrics are inserted last (lines
91-98). -/
structure BatchOutput (M : Type) where
  baseline_ce : List (String × M)
  baseline_entropy : List (String × M)
  lens_ce : List (String × M)
  lens_entropy : List (String × M)
  lens_kl : List (String × M)
deriving DecidableEq

/-- The external collaborators of one batch iteration, abstracted: the
captured residual stream of the forward pass (line 50-51), the final
log-probabilities (line 53), and the five per-layer metric expressions of
lines 63-81 (each combining the lens, `to_logits`, `cross_entropy`,
`log_softmax` and sums; their real-valued content is modelled separately
below) plus the two final-layer metrics of lines 91-98.  `lensLen` is
`len(lens)`. -/
structure BatchSem (B R M : Type) where
  lensLen : Nat
  stream : B → List (String × Tensor R)
  finalLps : B → M
  bce : B → Nat → Tensor R → M
  bent : B → Nat → Tensor R → M
  lce : B → Nat → Tensor R → M
  lent : B → Nat → Tensor R → M
  lkl : B → Nat → Tensor R → M
  finalCE : B → M
  finalEnt : B → M

/-- Lines 58-81 and 91-98: build `batch_output`.  The layer loop iterates
`zip(range(len(lens)), stream.items())`, which stops at the shorter of the
two sequences; the two `"final"` entries are appended afterwards. -/
def buildBatchOutput {B R M : Type} (sem : BatchSem B R M) (b : B) : BatchOutput M :=
  let paired := (List.range sem.lensLen).zip (sem.stream b)
  { baseline_ce := paired.map (fun x => (x.2.1, sem.bce b x.1 x.2.2)) ++
      [("final", sem.finalCE b)]
    baseline_entropy := paired.map (fun x => (x.2.1, sem.bent b x.1 x.2.2)) ++
      [("final", sem.finalEnt b)]
    lens_ce := paired.map (fun x => (x.2.1, sem.lce b x.1 x.2.2))
    lens_entropy := paired.map (fun x => (x.2.1, sem.lent b x.1 x.2.2))
    lens_kl := paired.map (fun x => (x.2.1, sem.lkl b x.1 x.2.2)) }

/-- Model of tqdm's public counter `n` as observed inside the body of the
k-th (0-based) loop iteration.  tqdm's `__iter__` yields the element first
and only afterwards increments an internal count and, when its
miniters/mininterval conditions hold (wall-clock dependent, abstracted here
as the refresh schedule `sched`), refreshes the display, which is what
writes the count back to the public `n`.  So during the body of iteration
k, `pbar.n` holds `j + 1` for the largest refreshed iteration `j < k`, and
`0` when no refresh has happened yet. -/
def displayN (sched : Nat → Bool) : Nat → Nat
  | 0 => 0
  | k + 1 => if sched k then k + 1 else displayN sched k

/-- Line 99: the file name of the k-th batch's metrics file,
`f"batch_{pbar.n}.pt"` with `n` the display counter's value. -/
def batch_file_name (n : Nat) : String :=
  "batch_" ++ toString n ++ ".pt"

/-- Contents of the files `eval_loop` writes: one metric file per batch
(line 99) and the four accumulator files (lines 102-105). -/
inductive FileData (R M : Type) where
  | batchFile : BatchOutput M → FileData R M
  | firstTokFile : ResidualStats (List (String × List (Option R))) → FileData R M
  | deltaFile : ResidualStats (List (String × Tensor R)) → FileData R M
  | streamFile : ResidualStats (List (String × Tensor R)) → FileData R M
  | logitFile : LogitStats M → FileData R M
deriving DecidableEq

def isBatchFile {R M : Type} : FileData R M → Bool
  | .batchFile _ => true
  | _ => false

/-- The mutable state of the batch loop: the four accumulators, the trace
of files written so far, and (ghost, for specification only) the list of
batches processed so far. -/
structure LoopAcc (B R M : Type) where
  processed : List B
  first_token_stats : ResidualStats (List (String × List (Option R)))
  delta_stats : ResidualStats (List (String × Tensor R))
  stream_stats : ResidualStats (List (String × Tensor R))
  logit_stats : LogitStats M
  writes : List (Path × FileData R M)
deriving Inhabited

def initLoopAcc {B R M : Type} : LoopAcc B R M :=
  { processed := []
    first_token_stats := ⟨[]⟩
    delta_stats := ⟨[]⟩
    stream_stats := ⟨[]⟩
    logit_stats := ⟨[]⟩
    writes := [] }

/-- One iteration of the batch loop (lines 48-99): build `batch_output`,
slice the stream into `first_tokens` and `rest`, update the four
accumulators (lines 86-89), and save `batch_output` to
`batch_{pbar.n}.pt` (line 99). -/
def stepBatch {B R M : Type} [Sub R] (sem : BatchSem B R M) (out : Path)
    (sched : Nat → Bool) (k : Nat) (b : B) (st : LoopAcc B R M) : LoopAcc B R M :=
  let stream := sem.stream b
  let batch_output := buildBatchOutput sem b
  let first_tokens := streamMap sliceFirstTok stream
  let rest := streamMap sliceRest stream
  { processed := st.processed ++ [b]
    first_token_stats := st.first_token_stats.update first_tokens
    delta_stats := st.delta_stats.update (streamMap residualsT rest)
    stream_stats := st.stream_stats.update rest
    logit_stats := st.logit_stats.update (sem.finalLps b) true
    writes := st.writes ++
      [(out ++ [batch_file_name (displayN sched k)], FileData.batchFile batch_output)] }

/-- The batch loop, indexed by the 0-based iteration counter. -/
def runBatches {B R M : Type} [Sub R] (sem : BatchSem B R M) (out : Path)
    (sched : Nat → Bool) : Nat → LoopAcc B R M → List B → LoopAcc B R M
  | _, st, [] => st
  | k, st, b :: bs => runBatches sem out sched (k + 1) (stepBatch sem out sched k b st) bs

/-- Lines 102-105: the four accumulator files written after the loop, in
source order. -/
def statsWrites {B R M : Type} (out : Path) (st : LoopAcc B R M) :
    List (Path × FileData R M) :=
  [(out ++ ["first_token_stats.pt"], .firstTokFile st.first_token_stats),
   (out ++ ["delta_stats.pt"], .deltaFile st.delta_stats),
   (out ++ ["stream_stats.pt"], .streamFile st.stream_stats),
   (out ++ ["logit_stats.pt"], .logitFile st.logit_stats)]

structure RunResult (B R M : Type) where
  fs : FS
  total : Nat
  acc : LoopAcc B R M
deriving Inhabited

/-- The control/IO flow of `eval_loop` (lines 24-105).  `dl` is the batch
list produced by the shuffled `DataLoader` (external); `sem` packages the
external model/lens computations of one batch; `sched` abstracts tqdm's
wall-clock display-refresh decisions.  `send_to_device` moves tensors
between devices and is identity in this model.  Lines 37-41: the Python
test `if args.limit:` is a truthiness test, so `limit = 0` (or `None`)
selects the no-limit branch; otherwise the stream is truncated by
`islice(dl, args.limit)` and the progress total is the limit.  Lines
43-45: resolve and create the output directory.  Then the loop, and the
four accumulator saves. -/
def eval_loop {B R M : Type} [Sub R] (args : Args) (local_rank : Nat) (fs : FS)
    (sem : BatchSem B R M) (dl : List B) (sched : Nat → Bool) :
    Except FsError (RunResult B R M) :=
  let dl' := if args.limit ≠ 0 then dl.take args.limit else dl
  let total := if args.limit ≠ 0 then args.limit else dl.length
  let out := output_dir args local_rank
  match fs.mkdir out true true with
  | .error e => .error e
  | .ok fs' =>
      let st := runBatches sem out sched 0 initLoopAcc dl'
      .ok { fs := fs'
            total := total
            acc := { st with writes := st.writes ++ statsWrites out st } }

/-- The run result of `eval_loop`, as a total function (defaulting on the
error case; the theorems below prove the error case never occurs). -/
def evalRun {B R M : Type} [Sub R] (args : Args) (local_rank : Nat) (fs : FS)
    (sem : BatchSem B R M) (dl : List B) (sched : Nat → Bool) : RunResult B R M :=
  match eval_loop args local_rank fs sem dl sched with
  | .ok r => r
  | .error _ => default

/-- The batch-metric file writes of a finished run, in write order. -/
def batchFileWrites {B R M : Type} (r : RunResult B R M) : List (Path × FileData R M) :=
  r.acc.writes.filter (fun w => isBatchFile w.2)

def batchFilePaths {B R M : Type} (r : RunResult B R M) : List Path :=
  (batchFileWrites r).map Prod.fst

/-- The expected per-batch write trace of the loop started at iteration
counter `k`. -/
def expectedBatchWrites {B R M : Type} (sem : BatchSem B R M) (out : Path)
    (sched : Nat → Bool) : Nat → List B → List (Path × FileData R M)
  | _, [] => []
  | k, b :: bs =>
      (out ++ [batch_file_name (displayN sched k)],
        FileData.batchFile (buildBatchOutput sem b)) ::
      expectedBatchWrites sem out sched (k + 1) bs

/-- The display-counter values used to name the batch files of a run of
`T` batches. -/
def writtenIndices (sched : Nat → Bool) (T : Nat) : List Nat :=
  (List.range T).map (displayN sched)

/-! Real-valued model of the per-position metric arithmetic.  A tensor of
log-probabilities over a vocabulary of size `V` is, per position, a
function `Fin V → ℝ`; a batched sequence tensor is indexed by an example
index `Fin B` and a position index. -/

/-- Torch `log_softmax(dim=-1)` over one position's vocabulary axis. -/
noncomputable def log_softmax {V : ℕ} (z : Fin V → ℝ) : Fin V → ℝ :=
  fun i => z i - Real.log (∑ j, Real.exp (z j))

/-- Line 54: `final_probs = final_lps.exp()`, per position. -/
noncomputable def final_probs {Pos : Type} {V : ℕ} (final_lps : Pos → Fin V → ℝ) :
    Pos → Fin V → ℝ :=
  fun p j => Real.exp (final_lps p j)

/-- Lines 79-81: the stored `lens_kl` entry — per position, the sum over
the vocabulary axis of `final_probs * (final_lps - lens_lps)`, with no
reduction over positions. -/
noncomputable def lens_kl {Pos : Type} {V : ℕ} (final_lps lens_lps : Pos → Fin V → ℝ) :
    Pos → ℝ :=
  fun p => ∑ j, final_probs final_lps p j * (final_lps p j - lens_lps p j)

/-- Lines 96-98: `baseline_entropy["final"]` — per position, the sum over
the vocabulary axis of `-final_probs * final_lps`, where `final_lps` is the
log-softmax of the model's final logits (line 53). -/
noncomputable def baseline_entropy_final {Pos : Type} {V : ℕ} (logits : Pos → Fin V → ℝ) :
    Pos → ℝ :=
  fun p => ∑ j, -(final_probs (fun q => log_softmax (logits q)) p j) *
    log_softmax (logits p) j

/-- Line 55: `labels = batch["input_ids"][:, 1:]` — all tokens except the
first; the sequence axis is modelled with length `S + 1` so the labels
have length `S`. -/
def labels {B S V : ℕ} (input_ids : Fin B → Fin (S + 1) → Fin V) :
    Fin B → Fin S → Fin V :=
  fun b t => input_ids b t.succ

/-- Modelled from the spec: `white_box.utils.maybe_shift_preds` is not under
`src/`; per §4.1 step d the predictions are "shifted by one position to
align prediction with label", i.e. the prediction at position `t` is scored
against the token at position `t + 1`; with predictions over `S + 1`
positions and labels over `S` positions this keeps the predictions at
positions `0 .. S - 1`. -/
def maybe_shift_preds {B S V : ℕ} (lps : Fin B → Fin (S + 1) → Fin V → ℝ) :
    Fin B → Fin S → Fin V → ℝ :=
  fun b t => lps b t.castSucc

/-- Torch `.flatten(0, 1)`: merge the example and position axes, row-major
(example-major), so flat index `b * S + t` holds entry `(b, t)`. -/
def flatten2 {S : ℕ} {B : ℕ} {α : Type} (f : Fin B → Fin S → α) : Fin (B * S) → α :=
  fun n =>
    have hS : 0 < S := by
      rcases Nat.eq_zero_or_pos S with h | h
      · exact absurd n.2 (by simp [h])
      · exact h
    f ⟨n.1 / S, (Nat.div_lt_iff_lt_mul hS).mpr n.2⟩ ⟨n.1 % S, Nat.mod_lt _ hS⟩

/-- The flat index of entry `(b, t)` after `.flatten(0, 1)`. -/
def flatIdx {S : ℕ} {B : ℕ} (b : Fin B) (t : Fin S) : Fin (B * S) :=
  ⟨b.1 * S + t.1, by
    calc b.1 * S + t.1 < b.1 * S + S := by exact Nat.add_lt_add_left t.2 _
    _ = (b.1 + 1) * S := by ring
    _ ≤ B * S := Nat.mul_le_mul_right S b.2⟩

/-- Torch `th.nn.functional.cross_entropy(input, target, reduction="none")`
over class-index targets: per row, the negative log-softmax of the input
row at the target class; no reduction, so the per-row losses are kept. -/
noncomputable def cross_entropy {N V : ℕ} (input : Fin N → Fin V → ℝ)
    (target : Fin N → Fin V) : Fin N → ℝ :=
  fun n => -(log_softmax (input n) (target n))

/-- Lines 63-67, 71-75 and 91-95: the common form of the three
cross-entropy metrics — `cross_entropy(maybe_shift_preds(lps, 1).flatten(0, 1),
labels.flatten(), reduction="none")` — as a function of the
log-probability tensor `lps` it is applied to. -/
noncomputable def ce_metric {B S V : ℕ} (lps : Fin B → Fin (S + 1) → Fin V → ℝ)
    (input_ids : Fin B → Fin (S + 1) → Fin V) : Fin (B * S) → ℝ :=
  cross_entropy (flatten2 (maybe_shift_preds lps)) (flatten2 (labels input_ids))

/-! Scoped residual-stream capture and Python `with` semantics, for the
exception path of the forward pass (lines 50-51). -/

/-- Python `with` semantics over an instrumentation state `σ`: run
`__enter__`, then the body (which may raise, modelled by `Except`), then
`__exit__` on both the normal and the raising path; a non-suppressing
context manager re-raises the body's exception after `__exit__`. -/
def withCM {σ E A : Type} (enter exit_ : σ → σ) (body : σ → σ × Except E A)
    (s : σ) : σ × Except E A :=
  let s1 := enter s
  let r := body s1
  (exit_ r.1, r.2)

/-- Modelled from the spec: `record_residual_stream` (white_box, not under
`src/`) attaches forward-pass instrumentation (hooks) on scope entry. -/
def record_residual_stream_enter : Bool → Bool := fun _ => true

/-- Modelled from the spec: `record_residual_stream` removes the attached
instrumentation on scope exit, on every exit path. -/
def record_residual_stream_exit : Bool → Bool := fun _ => false

/-- One batch iteration's failure structure: the forward pass runs inside
the capture scope (lines 50-51) and may raise; the metric computation,
accumulator updates and the batch save run after the scope and may raise.
The state component is whether instrumentation is attached to the model.
No stage is retried and no exception is caught. -/
def batchStep {E Strm Out : Type} (forward : Bool → Except E Strm)
    (computeAndSave : Strm → Except E Out) (hooks : Bool) : Bool × Except E Out :=
  let captured := withCM record_residual_stream_enter record_residual_stream_exit
    (fun h => (h, forward h)) hooks
  match captured.2 with
  | .error e => (captured.1, .error e)
  | .ok strm => (captured.1, computeAndSave strm)

/-! Concrete instances used to evaluate the model at specific inputs. -/

/-- A batch semantics with an empty captured stream and zero-valued
metrics, over trivial index types. -/
def triv_sem : BatchSem Unit Int Int :=
  { lensLen := 0
    stream := fun _ => []
    finalLps := fun _ => 0
    bce := fun _ _ _ => 0
    bent := fun _ _ _ => 0
    lce := fun _ _ _ => 0
    lent := fun _ _ _ => 0
    lkl := fun _ _ _ => 0
    finalCE := fun _ => 0
    finalEnt := fun _ => 0 }

def fs0 : FS := ⟨[]⟩

/-- A configuration with an explicit output path and no limit. -/
def args_out : Args :=
  { seed := 0, per_gpu_batch_size := 1, limit := 0, output := some ["out"], lens := ["lens"] }

/-- A refresh schedule on which the display refreshes after every
iteration. -/
def schedT : Nat → Bool := fun _ => true

/-- A refresh schedule on which the display never refreshes during the
loop (iterations faster than tqdm's `mininterval`). -/
def schedF : Nat → Bool := fun _ => false

/-- A configuration with no output path (the lens-path fallback of line 43)
and a limit of 2. -/
def args_lens : Args :=
  { seed := 0, per_gpu_batch_size := 1, limit := 2, output := none, lens := ["lens"] }

/-! Helper lemmas about the filesystem model. -/

theorem mem_pathAncestors_self (p : Path) (hp : p ≠ []) : p ∈ pathAncestors p := by
  have hl : 0 < p.length := List.length_pos.mpr hp
  unfold pathAncestors
  refine List.mem_map.mpr ⟨p.length - 1, List.mem_range.mpr (by omega), ?_⟩
  have h1 : p.length - 1 + 1 = p.length := by omega
  rw [h1, List.take_length]

theorem hasDir_mkdirAll_self (fs : FS) (p : Path) (hp : p ≠ []) :
    (fs.mkdirAll p).hasDir p = true := by
  unfold FS.mkdirAll FS.hasDir
  simp only [decide_eq_true_eq]
  by_cases h : p ∈ fs.dirs
  · exact List.mem_append.mpr (Or.inl h)
  · refine List.mem_append.mpr (Or.inr ?_)
    refine List.mem_filter.mpr ⟨mem_pathAncestors_self p hp, ?_⟩
    simp [FS.hasDir, h]

/-- With `parents=True, exist_ok=True` — the flags `eval_loop` passes on
line 45 — `mkdir` always succeeds, and a second call on the resulting
filesystem succeeds without changing it. -/
theorem mkdir_tt_idem (fs : FS) (p : Path) (hp : p ≠ []) :
    ∃ fs', fs.mkdir p true true = .ok fs' ∧ fs'.hasDir p = true ∧
      fs'.mkdir p true true = .ok fs' := by
  by_cases h : fs.hasDir p = true
  · exact ⟨fs, by simp [FS.mkdir, h], h, by simp [FS.mkdir, h]⟩
  · refine ⟨fs.mkdirAll p, by simp [FS.mkdir, h], hasDir_mkdirAll_self fs p hp, ?_⟩
    simp [FS.mkdir, hasDir_mkdirAll_self fs p hp]

theorem output_dir_ne_nil (args : Args) (local_rank : Nat) :
    output_dir args local_rank ≠ [] := by
  simp [output_dir]

/-! Helper lemmas about the batch loop. -/

theorem runBatches_processed {B R M : Type} [Sub R] (sem : BatchSem B R M) (out : Path)
    (sched : Nat → Bool) (dl : List B) : ∀ (k : Nat) (st : LoopAcc B R M),
    (runBatches sem out sched k st dl).processed = st.processed ++ dl := by
  induction dl with
  | nil => intro k st; simp [runBatches]
  | cons b bs ih =>
      intro k st
      simp only [runBatches]
      rw [ih]
      simp [stepBatch]

theorem runBatches_writes {B R M : Type} [Sub R] (sem : BatchSem B R M) (out : Path)
    (sched : Nat → Bool) (dl : List B) : ∀ (k : Nat) (st : LoopAcc B R M),
    (runBatches sem out sched k st dl).writes =
      st.writes ++ expectedBatchWrites sem out sched k dl := by
  induction dl with
  | nil => intro k st; simp [runBatches, expectedBatchWrites]
  | cons b bs ih =>
      intro k st
      simp only [runBatches, expectedBatchWrites]
      rw [ih]
      simp [stepBatch]

theorem runBatches_first_token {B R M : Type} [Sub R] (sem : BatchSem B R M) (out : Path)
    (sched : Nat → Bool) (dl : List B) : ∀ (k : Nat) (st : LoopAcc B R M),
    (runBatches sem out sched k st dl).first_token_stats.updates =
      st.first_token_stats.updates ++
        dl.map (fun b => streamMap sliceFirstTok (sem.stream b)) := by
  induction dl with
  | nil => intro k st; simp [runBatches]
  | cons b bs ih =>
      intro k st
      simp only [runBatches]
      rw [ih]
      simp [stepBatch, ResidualStats.update]

theorem runBatches_delta {B R M : Type} [Sub R] (sem : BatchSem B R M) (out : Path)
    (sched : Nat → Bool) (dl : List B) : ∀ (k : Nat) (st : LoopAcc B R M),
    (runBatches sem out sched k st dl).delta_stats.updates =
      st.delta_stats.updates ++
        dl.map (fun b => streamMap residualsT (streamMap sliceRest (sem.stream b))) := by
  induction dl with
  | nil => intro k st; simp [runBatches]
  | cons b bs ih =>
      intro k st
      simp only [runBatches]
      rw [ih]
      simp [stepBatch, ResidualStats.update]

theorem runBatches_stream {B R M : Type} [Sub R] (sem : BatchSem B R M) (out : Path)
    (sched : Nat → Bool) (dl : List B) : ∀ (k : Nat) (st : LoopAcc B R M),
    (runBatches sem out sched k st dl).stream_stats.updates =
      st.stream_stats.updates ++
        dl.map (fun b => streamMap sliceRest (sem.stream b)) := by
  induction dl with
  | nil => intro k st; simp [runBatches]
  | cons b bs ih =>
      intro k st
      simp only [runBatches]
      rw [ih]
      simp [stepBatch, ResidualStats.update]

theorem runBatches_logit {B R M : Type} [Sub R] (sem : BatchSem B R M) (out : Path)
    (sched : Nat → Bool) (dl : List B) : ∀ (k : Nat) (st : LoopAcc B R M),
    (runBatches sem out sched k st dl).logit_stats.updates =
      st.logit_stats.updates ++ dl.map (fun b => (sem.finalLps b, true)) := by
  induction dl with
  | nil => intro k st; simp [runBatches]
  | cons b bs ih =>
      intro k st
      simp only [runBatches]
      rw [ih]
      simp [stepBatch, LogitStats.update]

/-- The core shape of a finished run: `mkdir` succeeded and the result
fields are the truncated batch list's loop outputs. -/
theorem evalRun_spec {B R M : Type} [Sub R] (args : Args) (local_rank : Nat) (fs : FS)
    (sem : BatchSem B R M) (dl : List B) (sched : Nat → Bool) :
    ∃ fs', fs.mkdir (output_dir args local_rank) true true = .ok fs' ∧
      evalRun args local_rank fs sem dl sched =
        { fs := fs'
          total := if args.limit ≠ 0 then args.limit else dl.length
          acc :=
            let st := runBatches sem (output_dir args local_rank) sched 0 initLoopAcc
              (if args.limit ≠ 0 then dl.take args.limit else dl)
            { st with writes := st.writes ++
                statsWrites (output_dir args local_rank) st } } := by
  obtain ⟨fs', h, -, -⟩ :=
    mkdir_tt_idem fs (output_dir args local_rank) (output_dir_ne_nil args local_rank)
  refine ⟨fs', h, ?_⟩
  simp only [evalRun, eval_loop, h]

theorem eval_loop_ok {B R M : Type} [Sub R] (args : Args) (local_rank : Nat) (fs : FS)
    (sem : BatchSem B R M) (dl : List B) (sched : Nat → Bool) :
    eval_loop args local_rank fs sem dl sched =
      .ok (evalRun args local_rank fs sem dl sched) := by
  obtain ⟨fs', h, -, -⟩ :=
    mkdir_tt_idem fs (output_dir args local_rank) (output_dir_ne_nil args local_rank)
  simp only [evalRun, eval_loop, h]

/-! Helper lemmas about the display counter and the batch-file names. -/

theorem displayN_all_true (sched : Nat → Bool) (h : ∀ j, sched j = true) :
    ∀ k, displayN sched k = k := by
  intro k
  induction k with
  | zero => rfl
  | succ k ih => simp [displayN, h k]

theorem expectedBatchWrites_map_fst {B R M : Type} (sem : BatchSem B R M) (out : Path)
    (sched : Nat → Bool) (dl : List B) : ∀ (k : Nat),
    (expectedBatchWrites sem out sched k dl).map Prod.fst =
      (List.range' k dl.length).map
        (fun i => out ++ [batch_file_name (displayN sched i)]) := by
  induction dl with
  | nil => intro k; simp [expectedBatchWrites]
  | cons b bs ih =>
      intro k
      simp only [expectedBatchWrites, List.length_cons, List.range'_succ, List.map_cons]
      rw [ih]

theorem filter_expectedBatchWrites {B R M : Type} (sem : BatchSem B R M) (out : Path)
    (sched : Nat → Bool) (dl : List B) : ∀ (k : Nat),
    (expectedBatchWrites sem out sched k dl).filter (fun w => isBatchFile w.2) =
      expectedBatchWrites sem out sched k dl := by
  induction dl with
  | nil => intro k; simp [expectedBatchWrites]
  | cons b bs ih =>
      intro k
      simp only [expectedBatchWrites, List.filter_cons]
      rw [ih]
      simp [isBatchFile]

theorem filter_statsWrites {B R M : Type} (out : Path) (st : LoopAcc B R M) :
    (statsWrites out st).filter (fun w => isBatchFile w.2) = [] := by
  simp [statsWrites, isBatchFile]

/-- The batch-metric files of a finished run are exactly the per-iteration
writes of the loop over the truncated batch list. -/
theorem batchFileWrites_evalRun {B R M : Type} [Sub R] (args : Args) (local_rank : Nat)
    (fs : FS) (sem : BatchSem B R M) (dl : List B) (sched : Nat → Bool) :
    batchFileWrites (evalRun args local_rank fs sem dl sched) =
      expectedBatchWrites sem (output_dir args local_rank) sched 0
        (if args.limit ≠ 0 then dl.take args.limit else dl) := by
  obtain ⟨fs', -, hrun⟩ := evalRun_spec args local_rank fs sem dl sched
  rw [hrun]
  simp only [batchFileWrites]
  rw [runBatches_writes]
  simp only [initLoopAcc, List.filter_append, filter_statsWrites, List.append_nil]
  rw [filter_expectedBatchWrites]
  simp

/-! Helper lemmas about the paired layer iteration of line 59. -/

theorem map_snd_zip_eq_take {α β : Type} : ∀ (l₁ : List α) (l₂ : List β),
    (l₁.zip l₂).map Prod.snd = l₂.take l₁.length
  | [], l₂ => by simp
  | a :: l₁, [] => by simp
  | a :: l₁, b :: l₂ => by simp [map_snd_zip_eq_take l₁ l₂]

/-- The layer names of the paired iteration `zip(range(len(lens)),
stream.items())`: the first `len(lens)` captured layer names, i.e. all of
them when the stream is not longer than the lens. -/
theorem paired_names {α : Type} (L : Nat) (s : List (String × α)) :
    ((List.range L).zip s).map (fun x => x.2.1) = (s.map Prod.fst).take L := by
  have h1 : ((List.range L).zip s).map (fun x => x.2.1) =
      (((List.range L).zip s).map Prod.snd).map Prod.fst := by
    rw [List.map_map]
    rfl
  rw [h1, map_snd_zip_eq_take, List.length_range, List.map_take]

theorem streamMap_names {R α : Type} (f : Tensor R → α) (s : List (String × Tensor R)) :
    (streamMap f s).map Prod.fst = s.map Prod.fst := by
  simp [streamMap]

/-! Helper lemmas about flattening and `log_softmax`. -/

theorem flatten2_flatIdx {S B : ℕ} {α : Type} (f : Fin B → Fin S → α)
    (b : Fin B) (t : Fin S) : flatten2 f (flatIdx b t) = f b t := by
  have hS : 0 < S := Nat.pos_of_ne_zero (by
    intro h
    have := t.2
    omega)
  have hdiv : (b.1 * S + t.1) / S = b.1 := by
    rw [Nat.mul_comm b.1 S, Nat.mul_add_div hS, Nat.div_eq_of_lt t.2, Nat.add_zero]
  have hmod : (b.1 * S + t.1) % S = t.1 := by
    rw [Nat.mul_comm b.1 S, Nat.mul_add_mod, Nat.mod_eq_of_lt t.2]
  simp only [flatten2, flatIdx]
  congr 1 <;> exact Fin.ext (by assumption)

theorem sum_exp_log_softmax {V : ℕ} (hV : 0 < V) (z : Fin V → ℝ) :
    ∑ j, Real.exp (log_softmax z j) = 1 := by
  have hS : 0 < ∑ k, Real.exp (z k) :=
    Finset.sum_pos (fun k _ => Real.exp_pos _) ⟨⟨0, hV⟩, Finset.mem_univ _⟩
  have h1 : ∀ j : Fin V, Real.exp (log_softmax z j) =
      Real.exp (z j) / ∑ k, Real.exp (z k) := by
    intro j
    rw [log_softmax, Real.exp_sub, Real.exp_log hS]
  rw [Finset.sum_congr rfl (fun j _ => h1 j), ← Finset.sum_div, div_self hS.ne']

/-- A normalized log-probability tensor is a fixed point of `log_softmax`
(which is why `cross_entropy` applied to an already log-softmaxed input
computes the negative log-probability of the target). -/
theorem log_softmax_of_normalized {V : ℕ} (z : Fin V → ℝ)
    (h : ∑ j, Real.exp (z j) = 1) : log_softmax z = z := by
  funext i
  rw [log_softmax, h, Real.log_one, sub_zero]

/-! Gibbs' inequality, in the exponential form matching the source's
normalized log-probability tensors. -/

theorem gibbs_nonneg {V : ℕ} (a b : Fin V → ℝ)
    (ha : ∑ j, Real.exp (a j) = 1) (hb : ∑ j, Real.exp (b j) = 1) :
    0 ≤ ∑ j, Real.exp (a j) * (a j - b j) := by
  have key : ∀ j : Fin V, Real.exp (a j) * (1 + (b j - a j)) ≤ Real.exp (b j) := by
    intro j
    have h1 : 1 + (b j - a j) ≤ Real.exp (b j - a j) := by
      have := Real.add_one_le_exp (b j - a j)
      linarith
    have h2 : Real.exp (a j) * Real.exp (b j - a j) = Real.exp (b j) := by
      rw [← Real.exp_add]
      congr 1
      ring
    calc Real.exp (a j) * (1 + (b j - a j)) ≤ Real.exp (a j) * Real.exp (b j - a j) :=
          mul_le_mul_of_nonneg_left h1 (Real.exp_pos _).le
      _ = Real.exp (b j) := h2
  have hsum : ∑ j, Real.exp (a j) * (1 + (b j - a j)) ≤ ∑ j, Real.exp (b j) :=
    Finset.sum_le_sum (fun j _ => key j)
  have expand : ∑ j, Real.exp (a j) * (1 + (b j - a j)) =
      (∑ j, Real.exp (a j)) + ∑ j, Real.exp (a j) * (b j - a j) := by
    rw [← Finset.sum_add_distrib]
    exact Finset.sum_congr rfl (fun j _ => by ring)
  have flip : ∑ j, Real.exp (a j) * (a j - b j) =
      -(∑ j, Real.exp (a j) * (b j - a j)) := by
    rw [← Finset.sum_neg_distrib]
    exact Finset.sum_congr rfl (fun j _ => by ring)
  rw [flip]
  rw [expand, ha, hb] at hsum
  linarith

theorem gibbs_eq_zero_iff {V : ℕ} (a b : Fin V → ℝ)
    (ha : ∑ j, Real.exp (a j) = 1) (hb : ∑ j, Real.exp (b j) = 1) :
    (∑ j, Real.exp (a j) * (a j - b j)) = 0 ↔ ∀ j, b j = a j := by
  constructor
  · intro h0
    have hD0 : ∀ j ∈ Finset.univ, (0:ℝ) ≤
        Real.exp (a j) * (Real.exp (b j - a j) - 1 - (b j - a j)) := by
      intro j _
      have h1 := Real.add_one_le_exp (b j - a j)
      have h2 := (Real.exp_pos (a j)).le
      have h3 : 0 ≤ Real.exp (b j - a j) - 1 - (b j - a j) := by linarith
      exact mul_nonneg h2 h3
    have hprod : ∀ j : Fin V, Real.exp (a j) * Real.exp (b j - a j) = Real.exp (b j) := by
      intro j
      rw [← Real.exp_add]
      congr 1
      ring
    have hflip : ∑ j, Real.exp (a j) * (b j - a j) = 0 := by
      have : ∑ j, Real.exp (a j) * (b j - a j) =
          -(∑ j, Real.exp (a j) * (a j - b j)) := by
        rw [← Finset.sum_neg_distrib]
        exact Finset.sum_congr rfl (fun j _ => by ring)
      rw [this, h0, neg_zero]
    have hsumD : ∑ j, Real.exp (a j) * (Real.exp (b j - a j) - 1 - (b j - a j)) = 0 := by
      have step : ∀ j : Fin V, Real.exp (a j) * (Real.exp (b j - a j) - 1 - (b j - a j)) =
          Real.exp (b j) - Real.exp (a j) - Real.exp (a j) * (b j - a j) := by
        intro j
        have := hprod j
        nlinarith [hprod j]
      rw [Finset.sum_congr rfl (fun j _ => step j)]
      rw [Finset.sum_sub_distrib, Finset.sum_sub_distrib, ha, hb, hflip]
      ring
    have each := (Finset.sum_eq_zero_iff_of_nonneg hD0).mp hsumD
    intro j
    have hj := each j (Finset.mem_univ j)
    have hexp : Real.exp (b j - a j) - 1 - (b j - a j) = 0 := by
      rcases mul_eq_zero.mp hj with h | h
      · exact absurd h (Real.exp_pos _).ne'
      · exact h
    by_contra hne
    have hne' : b j - a j ≠ 0 := fun h => hne (by linarith [sub_eq_zero.mp h])
    have := Real.add_one_lt_exp hne'
    linarith
  · intro h
    refine Finset.sum_eq_zero (fun j _ => ?_)
    rw [h j]
    ring

theorem entropy_nonneg {V : ℕ} (lps : Fin V → ℝ) (h : ∑ j, Real.exp (lps j) = 1) :
    0 ≤ ∑ j, -(Real.exp (lps j)) * lps j := by
  refine Finset.sum_nonneg (fun j _ => ?_)
  have hle : Real.exp (lps j) ≤ 1 := by
    rw [← h]
    exact Finset.single_le_sum (fun i _ => (Real.exp_pos (lps i)).le) (Finset.mem_univ j)
  have hlps : lps j ≤ 0 := Real.exp_le_one_iff.mp hle
  have h2 : (0:ℝ) ≤ Real.exp (lps j) * (-(lps j)) :=
    mul_nonneg (Real.exp_pos _).le (neg_nonneg.mpr hlps)
  have h3 : -(Real.exp (lps j)) * lps j = Real.exp (lps j) * (-(lps j)) := by ring
  rw [h3]
  exact h2

theorem entropy_le_log_card {V : ℕ} (hV : 0 < V) (lps : Fin V → ℝ)
    (h : ∑ j, Real.exp (lps j) = 1) :
    ∑ j, -(Real.exp (lps j)) * lps j ≤ Real.log V := by
  have hVR : (0:ℝ) < (V : ℝ) := by exact_mod_cast hV
  have hb : ∑ j : Fin V, Real.exp ((fun _ : Fin V => -Real.log V) j) = 1 := by
    simp only [Real.exp_neg, Real.exp_log hVR]
    rw [Finset.sum_const, Finset.card_univ, Fintype.card_fin, nsmul_eq_mul]
    exact mul_inv_cancel₀ hVR.ne'
  have hg := gibbs_nonneg lps (fun _ => -Real.log V) h hb
  have expand : ∑ j, Real.exp (lps j) * (lps j - (fun _ : Fin V => -Real.log V) j) =
      (∑ j, Real.exp (lps j) * lps j) + Real.log V * ∑ j, Real.exp (lps j) := by
    rw [Finset.mul_sum, ← Finset.sum_add_distrib]
    exact Finset.sum_congr rfl (fun j _ => by ring)
  rw [expand, h, mul_one] at hg
  have hsum : ∑ j, -(Real.exp (lps j)) * lps j = -(∑ j, Real.exp (lps j) * lps j) := by
    rw [← Finset.sum_neg_distrib]
    exact Finset.sum_congr rfl (fun j _ => by ring)
  rw [hsum]
  linarith

/-- C3: for every position of every batch and paired layer, the stored
`lens_kl` value is the vocabulary-axis sum of
`final_probs * (final_log_probs - lens_log_probs)` with no reduction over
positions, and whenever `final_probs` is the element-wise exponential of
the normalized `final_log_probs` and `lens_log_probs` is normalized, it is
nonnegative and vanishes exactly when the lens distribution equals the
final distribution at that position. -/
theorem c3_lens_kl_formula_and_nonneg {Pos : Type} {V : ℕ}
    (final_lps lens_lps : Pos → Fin V → ℝ) (p : Pos) :
    lens_kl final_lps lens_lps p =
      ∑ j, final_probs final_lps p j * (final_lps p j - lens_lps p j)
    ∧ ((∑ j, Real.exp (final_lps p j)) = 1 → (∑ j, Real.exp (lens_lps p j)) = 1 →
        0 ≤ lens_kl final_lps lens_lps p
        ∧ (lens_kl final_lps lens_lps p = 0 ↔
            ∀ j, Real.exp (lens_lps p j) = Real.exp (final_lps p j))) := by
  refine ⟨rfl, fun hfin hlens => ?_⟩
  have hkl : lens_kl final_lps lens_lps p =
      ∑ j, Real.exp (final_lps p j) * (final_lps p j - lens_lps p j) := rfl
  constructor
  · rw [hkl]
    exact gibbs_nonneg _ _ hfin hlens
  · rw [hkl, gibbs_eq_zero_iff _ _ hfin hlens]
    constructor
    · intro h j
      rw [h j]
    · intro h j
      exact Real.exp_eq_exp.mp (h j)

/-- Witness for `c3_lens_kl_formula_and_nonneg`: a one-token vocabulary with
the zero log-probability tensor satisfies both normalization hypotheses,
and the conclusion holds there. -/
theorem c3_witness :
    (∑ j : Fin 1, Real.exp ((fun (_ : Unit) (_ : Fin 1) => (0:ℝ)) () j) = 1) ∧
      (0 ≤ lens_kl (fun (_ : Unit) (_ : Fin 1) => (0:ℝ)) (fun _ _ => 0) ()
        ∧ (lens_kl (fun (_ : Unit) (_ : Fin 1) => (0:ℝ)) (fun _ _ => 0) () = 0 ↔
            ∀ _j : Fin 1, Real.exp ((0:ℝ)) = Real.exp ((0:ℝ)))) := by
  have h1 : ∑ j : Fin 1, Real.exp ((fun (_ : Unit) (_ : Fin 1) => (0:ℝ)) () j) = 1 := by
    simp
  exact ⟨h1, (c3_lens_kl_formula_and_nonneg (fun _ _ => 0) (fun _ _ => 0) ()).2 h1 h1⟩

/-- C7: every element of `baseline_entropy["final"]` — the vocabulary-axis
sum of `-final_probs * final_log_probs` with `final_log_probs` the
log-softmax of the final logits — lies between 0 and log(vocabulary size). -/
theorem c7_baseline_entropy_final_bounds {Pos : Type} {V : ℕ} (hV : 0 < V)
    (logits : Pos → Fin V → ℝ) (p : Pos) :
    0 ≤ baseline_entropy_final logits p ∧
      baseline_entropy_final logits p ≤ Real.log V := by
  have hnorm := sum_exp_log_softmax hV (logits p)
  have hform : baseline_entropy_final logits p =
      ∑ j, -(Real.exp (log_softmax (logits p) j)) * log_softmax (logits p) j := rfl
  rw [hform]
  exact ⟨entropy_nonneg _ hnorm, entropy_le_log_card hV _ hnorm⟩

/-- Witness for `c7_baseline_entropy_final_bounds` at a one-token vocabulary
and zero logits. -/
theorem c7_witness :
    0 < 1 ∧ (0 ≤ baseline_entropy_final (fun (_ : Unit) (_ : Fin 1) => (0:ℝ)) () ∧
      baseline_entropy_final (fun (_ : Unit) (_ : Fin 1) => (0:ℝ)) () ≤ Real.log 1) := by
  constructor
  · decide
  · have h := c7_baseline_entropy_final_bounds (V := 1) (by decide)
      (fun (_ : Unit) (_ : Fin 1) => (0:ℝ)) ()
    simpa using h

/-- C6: the labels of every cross-entropy metric are `input_ids` with the
first sequence position dropped and flattened, and each of
`baseline_ce[layer]`, `lens_ce[layer]` and `baseline_ce["final"]`
(instances of `ce_metric` at the respective normalized log-probability
tensor) scores, at flat index `(b, t)`, the prediction at position `t`
against the token at position `t + 1`, retaining per-token losses. -/
theorem c6_ce_labels_and_shift {B S V : ℕ} (lps : Fin B → Fin (S + 1) → Fin V → ℝ)
    (input_ids : Fin B → Fin (S + 1) → Fin V) (b : Fin B) (t : Fin S)
    (hnorm : ∀ (b' : Fin B) (s : Fin (S + 1)), ∑ j, Real.exp (lps b' s j) = 1) :
    flatten2 (labels input_ids) (flatIdx b t) = input_ids b t.succ
    ∧ ce_metric lps input_ids (flatIdx b t) =
        -(lps b t.castSucc (input_ids b t.succ)) := by
  have h1 : flatten2 (maybe_shift_preds lps) (flatIdx b t) = lps b t.castSucc :=
    flatten2_flatIdx _ b t
  have h2 : flatten2 (labels input_ids) (flatIdx b t) = input_ids b t.succ :=
    flatten2_flatIdx _ b t
  refine ⟨h2, ?_⟩
  simp only [ce_metric, cross_entropy]
  rw [h1, h2, log_softmax_of_normalized _ (hnorm b t.castSucc)]

/-- Witness for `c6_ce_labels_and_shift` at batch size 1, label length 1 and
a one-token vocabulary, with the zero log-probability tensor. -/
theorem c6_witness :
    (∀ (b' : Fin 1) (s : Fin 2), ∑ j : Fin 1,
        Real.exp ((fun (_ : Fin 1) (_ : Fin 2) (_ : Fin 1) => (0:ℝ)) b' s j) = 1) ∧
      (flatten2 (labels (fun (_ : Fin 1) (_ : Fin 2) => (0 : Fin 1))) (flatIdx 0 0) = 0
        ∧ ce_metric (fun (_ : Fin 1) (_ : Fin 2) (_ : Fin 1) => (0:ℝ))
            (fun _ _ => 0) (flatIdx 0 0) = -(0:ℝ)) := by
  have h : ∀ (b' : Fin 1) (s : Fin 2), ∑ j : Fin 1,
      Real.exp ((fun (_ : Fin 1) (_ : Fin 2) (_ : Fin 1) => (0:ℝ)) b' s j) = 1 := by
    intro b' s
    simp
  exact ⟨h, c6_ce_labels_and_shift (fun _ _ _ => 0) (fun _ _ => 0) 0 0 h⟩

/-- C9: the forward-pass instrumentation attached by the capture scope is
removed on every exit path of the scope — also when the forward pass
raises — and an exception raised by the forward pass, the metric
computation or the serialization propagates to the caller unchanged, with
no retry and no recovery. -/
theorem c9_hook_release_and_propagation {E Strm Out : Type}
    (forward : Bool → Except E Strm) (computeAndSave : Strm → Except E Out)
    (hooks : Bool) :
    (batchStep forward computeAndSave hooks).1 = false
    ∧ (∀ e, forward true = .error e →
        batchStep forward computeAndSave hooks = (false, .error e))
    ∧ (∀ strm e, forward true = .ok strm → computeAndSave strm = .error e →
        batchStep forward computeAndSave hooks = (false, .error e))
    ∧ (∀ strm o, forward true = .ok strm → computeAndSave strm = .ok o →
        batchStep forward computeAndSave hooks = (false, .ok o)) := by
  refine ⟨?_, ?_, ?_, ?_⟩
  · unfold batchStep withCM record_residual_stream_enter record_residual_stream_exit
    cases hf : forward true <;> simp [hf]
  · intro e hf
    unfold batchStep withCM record_residual_stream_enter record_residual_stream_exit
    simp [hf]
  · intro strm e hf hc
    unfold batchStep withCM record_residual_stream_enter record_residual_stream_exit
    simp [hf, hc]
  · intro strm o hf hc
    unfold batchStep withCM record_residual_stream_enter record_residual_stream_exit
    simp [hf, hc]

/-- Witness for `c9_hook_release_and_propagation`: a forward pass that
raises; the exception propagates and the instrumentation ends detached. -/
theorem c9_witness :
    (fun _ : Bool => (Except.error () : Except Unit Unit)) true = Except.error () ∧
      batchStep (fun _ : Bool => (Except.error () : Except Unit Unit))
        (fun _ : Unit => (Except.ok () : Except Unit Unit)) true = (false, Except.error ()) :=
  ⟨rfl, (c9_hook_release_and_propagation
    (fun _ : Bool => (Except.error () : Except Unit Unit))
    (fun _ : Unit => (Except.ok () : Except Unit Unit)) true).2.1 () rfl⟩

/-! Remaining helper lemmas about run shapes. -/

theorem expectedBatchWrites_under_out {B R M : Type} (sem : BatchSem B R M) (out : Path)
    (sched : Nat → Bool) (dl : List B) : ∀ (k : Nat),
    ∀ w ∈ expectedBatchWrites sem out sched k dl, ∃ f, w.1 = out ++ [f] := by
  induction dl with
  | nil => intro k w hw; simp [expectedBatchWrites] at hw
  | cons b bs ih =>
      intro k w hw
      rcases List.mem_cons.mp hw with h | h
      · exact ⟨batch_file_name (displayN sched k), by rw [h]⟩
      · exact ih (k + 1) w h

theorem statsWrites_under_out {B R M : Type} (out : Path) (st : LoopAcc B R M) :
    ∀ w ∈ statsWrites out st, ∃ f, w.1 = out ++ [f] := by
  intro w hw
  simp only [statsWrites, List.mem_cons, List.not_mem_nil, or_false] at hw
  rcases hw with h | h | h | h
  · exact ⟨"first_token_stats.pt", by rw [h]⟩
  · exact ⟨"delta_stats.pt", by rw [h]⟩
  · exact ⟨"stream_stats.pt", by rw [h]⟩
  · exact ⟨"logit_stats.pt", by rw [h]⟩

theorem evalRun_fs_hasDir {B R M : Type} [Sub R] (args : Args) (local_rank : Nat)
    (fs : FS) (sem : BatchSem B R M) (dl : List B) (sched : Nat → Bool) :
    ((evalRun args local_rank fs sem dl sched).fs).hasDir
      (output_dir args local_rank) = true := by
  obtain ⟨fs', hmk, hdir, -⟩ :=
    mkdir_tt_idem fs (output_dir args local_rank) (output_dir_ne_nil args local_rank)
  obtain ⟨fs'', hmk2, hrun⟩ := evalRun_spec args local_rank fs sem dl sched
  rw [hmk] at hmk2
  injection hmk2 with he
  rw [hrun]
  exact he ▸ hdir

/-! Claim C1. -/

/-- C1 counterexample: with an output path configured (here `out`), the
directory the code uses is `out/rank_0` — the `eval` component of the
claimed formula `<output-or-lens-path>/eval/rank_<rank>` is absent. -/
theorem c1_counterexample : output_dir args_out 0 ≠ spec_output_dir args_out 0 := by
  decide

/-- C1 (amended): the output directory is resolved to
`<output>/rank_<rank>` when an output path is configured and to
`<lens-path>/eval/rank_<rank>` otherwise; all files of the run are written
directly under it; it is created including missing parents, creation also
succeeds when it already exists, and a second run of `eval_loop` against
the same rank and output path succeeds as well. -/
theorem c1_output_dir_resolution_and_creation {B R M : Type} [Sub R] (args : Args)
    (local_rank : Nat) (fs : FS) (sem : BatchSem B R M) (dl : List B)
    (sched : Nat → Bool) :
    output_dir args local_rank =
      (match args.output with
       | some p => p ++ ["rank_" ++ toString local_rank]
       | none => args.lens ++ ["eval", "rank_" ++ toString local_rank])
    ∧ (∀ fs₁ : FS, ∃ fs₂, fs₁.mkdir (output_dir args local_rank) true true = .ok fs₂ ∧
        fs₂.mkdir (output_dir args local_rank) true true = .ok fs₂)
    ∧ eval_loop args local_rank fs sem dl sched =
        .ok (evalRun args local_rank fs sem dl sched)
    ∧ (∀ w ∈ (evalRun args local_rank fs sem dl sched).acc.writes,
        ∃ f, w.1 = output_dir args local_rank ++ [f])
    ∧ eval_loop args local_rank (evalRun args local_rank fs sem dl sched).fs sem dl
        sched =
      .ok (evalRun args local_rank (evalRun args local_rank fs sem dl sched).fs sem dl
        sched) := by
  refine ⟨?_, ?_, eval_loop_ok args local_rank fs sem dl sched, ?_,
    eval_loop_ok args local_rank _ sem dl sched⟩
  · cases houtput : args.output <;> simp [output_dir, root_dir, houtput]
  · intro fs₁
    obtain ⟨fs₂, h1, -, h2⟩ :=
      mkdir_tt_idem fs₁ (output_dir args local_rank) (output_dir_ne_nil args local_rank)
    exact ⟨fs₂, h1, h2⟩
  · obtain ⟨fs', -, hrun⟩ := evalRun_spec args local_rank fs sem dl sched
    rw [hrun]
    intro w hw
    simp only at hw
    rw [runBatches_writes] at hw
    simp only [initLoopAcc, List.nil_append] at hw
    rcases List.mem_append.mp hw with h | h
    · exact expectedBatchWrites_under_out sem _ sched _ 0 w h
    · exact statsWrites_under_out _ _ w h

/-- Witness for `c1_output_dir_resolution_and_creation`: on an empty-loader
run, one of the files actually written (the logit-stats summary) lies
directly under the resolved output directory. -/
theorem c1_witness :
    ((output_dir args_out 0 ++ ["logit_stats.pt"],
        (FileData.logitFile ⟨[]⟩ : FileData Int Int)) ∈
      (evalRun args_out 0 fs0 triv_sem ([] : List Unit) schedT).acc.writes)
    ∧ ∃ f, (output_dir args_out 0 ++ ["logit_stats.pt"],
        (FileData.logitFile ⟨[]⟩ : FileData Int Int)).1 = output_dir args_out 0 ++ [f] := by
  have hmem : (output_dir args_out 0 ++ ["logit_stats.pt"],
      (FileData.logitFile ⟨[]⟩ : FileData Int Int)) ∈
      (evalRun args_out 0 fs0 triv_sem ([] : List Unit) schedT).acc.writes := by decide
  exact ⟨hmem,
    (c1_output_dir_resolution_and_creation args_out 0 fs0 triv_sem ([] : List Unit)
      schedT).2.2.2.1 _ hmem⟩

/-! Claim C2. -/

/-- C2 counterexample: with `args.limit = 0` and a one-batch loader, the
truthiness test `if args.limit:` selects the no-limit branch: the batch is
processed and one batch file is written, not zero. -/
theorem c2_counterexample :
    args_out.limit = 0
    ∧ (batchFileWrites (evalRun args_out 0 fs0 triv_sem [()] schedT)).length = 1
    ∧ (evalRun args_out 0 fs0 triv_sem [()] schedT).acc.processed = [()] := by
  refine ⟨rfl, by decide, by decide⟩

/-- C2 (amended): `args.limit = 0` is falsy at the `if args.limit:` test,
so it does not truncate — every loader batch is processed, and zero batch
files arise only when the loader itself is empty; in that case the four
accumulators stay in their initial empty state, the output directory is
still created, and the four summary files are still written, containing
the empty accumulators. -/
theorem c2_limit_zero_behaviour {B R M : Type} [Sub R] (args : Args) (local_rank : Nat)
    (fs : FS) (sem : BatchSem B R M) (dl : List B) (sched : Nat → Bool)
    (hlimit : args.limit = 0) :
    (evalRun args local_rank fs sem dl sched).acc.processed = dl
    ∧ ((evalRun args local_rank fs sem dl sched).fs).hasDir
        (output_dir args local_rank) = true
    ∧ (dl = [] →
        batchFileWrites (evalRun args local_rank fs sem dl sched) = []
        ∧ (evalRun args local_rank fs sem dl sched).acc.first_token_stats.updates = []
        ∧ (evalRun args local_rank fs sem dl sched).acc.delta_stats.updates = []
        ∧ (evalRun args local_rank fs sem dl sched).acc.stream_stats.updates = []
        ∧ (evalRun args local_rank fs sem dl sched).acc.logit_stats.updates = []
        ∧ (evalRun args local_rank fs sem dl sched).acc.writes =
            statsWrites (output_dir args local_rank)
              (initLoopAcc : LoopAcc B R M)) := by
  obtain ⟨fs', -, hrun⟩ := evalRun_spec args local_rank fs sem dl sched
  refine ⟨?_, evalRun_fs_hasDir args local_rank fs sem dl sched, ?_⟩
  · rw [hrun]
    simp only [hlimit]
    rw [runBatches_processed]
    simp [initLoopAcc]
  · intro hdl
    subst hdl
    constructor
    · rw [batchFileWrites_evalRun]
      simp [hlimit, expectedBatchWrites]
    · rw [hrun]
      simp only [hlimit]
      refine ⟨?_, ?_, ?_, ?_, ?_⟩ <;>
        simp [runBatches, initLoopAcc, if_neg, statsWrites]

/-- Witness for `c2_limit_zero_behaviour` at a zero-limit configuration and
an empty loader. -/
theorem c2_witness :
    args_out.limit = 0
    ∧ ((evalRun args_out 0 fs0 triv_sem ([] : List Unit) schedT).acc.processed = []
        ∧ batchFileWrites (evalRun args_out 0 fs0 triv_sem ([] : List Unit) schedT) = []
        ∧ (evalRun args_out 0 fs0 triv_sem ([] : List Unit) schedT).acc.writes =
            statsWrites (output_dir args_out 0) (initLoopAcc : LoopAcc Unit Int Int)) := by
  have h := c2_limit_zero_behaviour args_out 0 fs0 triv_sem ([] : List Unit) schedT rfl
  exact ⟨rfl, h.1, (h.2.2 rfl).1, (h.2.2 rfl).2.2.2.2.2⟩

/-! Claim C4. -/

/-- C4 counterexample: two processed batches under a schedule on which the
display never refreshes during the loop (iterations faster than tqdm's
`mininterval`): the display counter stays 0, both batch files are named
`batch_0.pt` — the filenames collide (the second write overwrites the
first) and `batch_1.pt` is skipped. -/
theorem c4_counterexample :
    batchFilePaths (evalRun args_out 0 fs0 triv_sem [(), ()] schedF) =
      [["out", "rank_0", "batch_0.pt"], ["out", "rank_0", "batch_0.pt"]]
    ∧ ¬ (batchFilePaths (evalRun args_out 0 fs0 triv_sem [(), ()] schedF)).Nodup :=
  ⟨by decide, by decide⟩

/-- C4 (amended): exactly one batch file is written per processed batch,
containing `batch_output` (the five metric names, with the `"final"`
entries under the two baseline metrics); the k-th processed batch is
written to `batch_<d>.pt` where `d` is the progress display's counter at
iteration k, and when the display refreshes at every iteration the counter
values are exactly 0 .. T-1, so the names neither collide nor skip. -/
theorem c4_batch_file_per_batch_and_naming {B R M : Type} [Sub R] (args : Args)
    (local_rank : Nat) (fs : FS) (sem : BatchSem B R M) (dl : List B)
    (sched : Nat → Bool) :
    batchFileWrites (evalRun args local_rank fs sem dl sched) =
      expectedBatchWrites sem (output_dir args local_rank) sched 0
        (if args.limit ≠ 0 then dl.take args.limit else dl)
    ∧ batchFilePaths (evalRun args local_rank fs sem dl sched) =
        (writtenIndices sched
            (if args.limit ≠ 0 then dl.take args.limit else dl).length).map
          (fun i => output_dir args local_rank ++ [batch_file_name i])
    ∧ ((∀ j, sched j = true) →
        writtenIndices sched
            (if args.limit ≠ 0 then dl.take args.limit else dl).length =
          List.range (if args.limit ≠ 0 then dl.take args.limit else dl).length
        ∧ (writtenIndices sched
            (if args.limit ≠ 0 then dl.take args.limit else dl).length).Nodup) := by
  have hbw := batchFileWrites_evalRun args local_rank fs sem dl sched
  refine ⟨hbw, ?_, ?_⟩
  · simp only [batchFilePaths, hbw]
    rw [expectedBatchWrites_map_fst, writtenIndices, List.map_map,
      ← List.range_eq_range']
    rfl
  · intro hall
    have heq : writtenIndices sched
        (if args.limit ≠ 0 then dl.take args.limit else dl).length =
        List.range (if args.limit ≠ 0 then dl.take args.limit else dl).length := by
      rw [writtenIndices,
        List.map_congr_left (fun a _ => displayN_all_true sched hall a)]
      exact List.map_id _
    exact ⟨heq, heq ▸ List.nodup_range _⟩

/-- Witness for `c4_batch_file_per_batch_and_naming` on an always-refreshing
schedule and two batches. -/
theorem c4_witness :
    (∀ j, schedT j = true)
    ∧ (writtenIndices schedT
          (if args_out.limit ≠ 0 then ([(), ()] : List Unit).take args_out.limit
           else [(), ()]).length =
        List.range (if args_out.limit ≠ 0 then ([(), ()] : List Unit).take args_out.limit
           else [(), ()]).length
      ∧ (writtenIndices schedT
          (if args_out.limit ≠ 0 then ([(), ()] : List Unit).take args_out.limit
           else [(), ()]).length).Nodup) :=
  ⟨fun _ => rfl,
    (c4_batch_file_per_batch_and_naming args_out 0 fs0 triv_sem [(), ()] schedT).2.2
      (fun _ => rfl)⟩

/-! Claim C5. -/

/-- C5: with a nonzero (truthy) batch-count limit configured, the batch
stream is truncated to the first `limit` batches — so at most `limit` are
processed — and the limit is the progress-bar total; with no limit, the
full loader is processed and its batch count is the total. -/
theorem c5_limit_truncation {B R M : Type} [Sub R] (args : Args) (local_rank : Nat)
    (fs : FS) (sem : BatchSem B R M) (dl : List B) (sched : Nat → Bool) :
    (args.limit ≠ 0 →
      (evalRun args local_rank fs sem dl sched).acc.processed = dl.take args.limit
      ∧ (evalRun args local_rank fs sem dl sched).acc.processed.length ≤ args.limit
      ∧ (evalRun args local_rank fs sem dl sched).total = args.limit)
    ∧ (args.limit = 0 →
      (evalRun args local_rank fs sem dl sched).acc.processed = dl
      ∧ (evalRun args local_rank fs sem dl sched).total = dl.length) := by
  obtain ⟨fs', -, hrun⟩ := evalRun_spec args local_rank fs sem dl sched
  constructor
  · intro h
    have hp : (evalRun args local_rank fs sem dl sched).acc.processed =
        dl.take args.limit := by
      rw [hrun]
      simp only [h, ne_eq, not_false_eq_true, if_true]
      rw [runBatches_processed]
      simp [initLoopAcc]
    refine ⟨hp, ?_, ?_⟩
    · rw [hp, List.length_take]
      exact min_le_left _ _
    · rw [hrun]
      simp [h]
  · intro h
    constructor
    · rw [hrun]
      simp only [h, ne_eq, not_true_eq_false, if_false]
      rw [runBatches_processed]
      simp [initLoopAcc]
    · rw [hrun]
      simp [h]

/-- Witness for `c5_limit_truncation`: a limit of 2 on a three-batch
loader. -/
theorem c5_witness :
    args_lens.limit ≠ 0
    ∧ ((evalRun args_lens 0 fs0 triv_sem [(), (), ()] schedT).acc.processed =
          ([(), (), ()] : List Unit).take args_lens.limit
        ∧ (evalRun args_lens 0 fs0 triv_sem
            [(), (), ()] schedT).acc.processed.length ≤ args_lens.limit
        ∧ (evalRun args_lens 0 fs0 triv_sem [(), (), ()] schedT).total =
            args_lens.limit) :=
  ⟨by decide,
    (c5_limit_truncation args_lens 0 fs0 triv_sem [(), (), ()] schedT).1 (by decide)⟩

/-! Claim C8. -/

/-- C8: every completed run writes, after the batch files, exactly the four
accumulator files `first_token_stats.pt`, `delta_stats.pt`,
`stream_stats.pt`, `logit_stats.pt` in the output directory, and each
accumulator received exactly one update per processed batch:
`first_token_stats` the per-layer position-0 slices, `delta_stats` the
residuals of the positions-1..end slices, `stream_stats` the
positions-1..end slices, and `logit_stats` the final log-probabilities
flagged as already normalized. -/
theorem c8_accumulators_and_summary_files {B R M : Type} [Sub R] (args : Args)
    (local_rank : Nat) (fs : FS) (sem : BatchSem B R M) (dl : List B)
    (sched : Nat → Bool) :
    (evalRun args local_rank fs sem dl sched).acc.writes =
      expectedBatchWrites sem (output_dir args local_rank) sched 0
        (if args.limit ≠ 0 then dl.take args.limit else dl)
      ++ statsWrites (output_dir args local_rank)
          (evalRun args local_rank fs sem dl sched).acc
    ∧ (evalRun args local_rank fs sem dl sched).acc.first_token_stats.updates =
        (if args.limit ≠ 0 then dl.take args.limit else dl).map
          (fun b => streamMap sliceFirstTok (sem.stream b))
    ∧ (evalRun args local_rank fs sem dl sched).acc.delta_stats.updates =
        (if args.limit ≠ 0 then dl.take args.limit else dl).map
          (fun b => streamMap residualsT (streamMap sliceRest (sem.stream b)))
    ∧ (evalRun args local_rank fs sem dl sched).acc.stream_stats.updates =
        (if args.limit ≠ 0 then dl.take args.limit else dl).map
          (fun b => streamMap sliceRest (sem.stream b))
    ∧ (evalRun args local_rank fs sem dl sched).acc.logit_stats.updates =
        (if args.limit ≠ 0 then dl.take args.limit else dl).map
          (fun b => (sem.finalLps b, true)) := by
  obtain ⟨fs', -, hrun⟩ := evalRun_spec args local_rank fs sem dl sched
  rw [hrun]
  refine ⟨?_, ?_, ?_, ?_, ?_⟩
  · simp only [statsWrites]
    rw [runBatches_writes]
    simp [initLoopAcc]
  · rw [runBatches_first_token]
    simp [initLoopAcc]
  · rw [runBatches_delta]
    simp [initLoopAcc]
  · rw [runBatches_stream]
    simp [initLoopAcc]
  · rw [runBatches_logit]
    simp [initLoopAcc]

/-! Claim C10. -/

/-- C10: the per-layer entries of the five metric dictionaries are exactly
the first `min(len(lens), captured-layer-count)` captured layers — the
paired iteration `zip(range(len(lens)), stream.items())` stops at the
shorter sequence — with the two baseline dictionaries additionally ending
in their `"final"` entry, while the residual-accumulator payloads of the
same batch cover the full captured stream (all layer names, also those
past `len(lens)`), so a layer-count mismatch is silently tolerated rather
than reported. -/
theorem c10_paired_truncation_vs_full_stream {B R M : Type} [Sub R]
    (sem : BatchSem B R M) (b : B) :
    (buildBatchOutput sem b).lens_ce.map Prod.fst =
      ((sem.stream b).map Prod.fst).take sem.lensLen
    ∧ (buildBatchOutput sem b).lens_entropy.map Prod.fst =
        ((sem.stream b).map Prod.fst).take sem.lensLen
    ∧ (buildBatchOutput sem b).lens_kl.map Prod.fst =
        ((sem.stream b).map Prod.fst).take sem.lensLen
    ∧ (buildBatchOutput sem b).baseline_ce.map Prod.fst =
        ((sem.stream b).map Prod.fst).take sem.lensLen ++ ["final"]
    ∧ (buildBatchOutput sem b).baseline_entropy.map Prod.fst =
        ((sem.stream b).map Prod.fst).take sem.lensLen ++ ["final"]
    ∧ (buildBatchOutput sem b).lens_kl.length = min sem.lensLen (sem.stream b).length
    ∧ (streamMap sliceFirstTok (sem.stream b)).map Prod.fst =
        (sem.stream b).map Prod.fst
    ∧ (streamMap sliceRest (sem.stream b)).map Prod.fst = (sem.stream b).map Prod.fst
    ∧ (streamMap residualsT (streamMap sliceRest (sem.stream b))).map Prod.fst =
        (sem.stream b).map Prod.fst := by
  have hnames : ∀ {γ : Type} (g : Nat × String × Tensor R → γ),
      (((List.range sem.lensLen).zip (sem.stream b)).map
        (fun x => (x.2.1, g x))).map Prod.fst =
      ((sem.stream b).map Prod.fst).take sem.lensLen := by
    intro γ g
    rw [List.map_map]
    exact paired_names sem.lensLen (sem.stream b)
  refine ⟨?_, ?_, ?_, ?_, ?_, ?_, streamMap_names _ _, streamMap_names _ _, ?_⟩
  · exact hnames _
  · exact hnames _
  · exact hnames _
  · simp only [buildBatchOutput, List.map_append]
    rw [hnames _]
    rfl
  · simp only [buildBatchOutput, List.map_append]
    rw [hnames _]
    rfl
  · simp only [buildBatchOutput]
    rw [List.length_map, List.length_zip, List.length_range]
  · rw [streamMap_names, streamMap_names]

end WeightLensing
